import Mathlib

/-!
Verification of the capture/analysis/decision engine of a voice-input tool.

Shallow embedding of `src/recorder.py` (capture buffer, tail extraction,
WAV serialization, auto-stop silence detector, frequency-band levels) and of
the auto-send keyword matching in `hotkey_daemon.py`, together with theorems
settling the specification's claims about them.

Conventions: Python floats used only for wall-clock times, RMS values and
durations are embedded as rationals; 16-bit audio samples are embedded as
integers with an explicit range hypothesis where two's-complement encoding
matters; Python strings are embedded as lists of characters, so that every
definition evaluates inside the kernel.
-/

namespace VoiceInput

/-! ### String primitives modelling Python str operations on `List Char` -/

/-- The ASCII apostrophe character (written via its code point so that the
Lean source stays free of stray quote characters). -/
def apos : Char := Char.ofNat 39

/-- The Unicode right single quotation mark U+2019. -/
def rsquo : Char := Char.ofNat 0x2019

/-- Models Python `str.lower()`; the inputs of interest are ASCII letters,
punctuation and U+2019, on which both agree. -/
def pyLower (s : List Char) : List Char := s.map Char.toLower

/-- Models Python `str.replace(c, "")`: remove every occurrence of `c`. -/
def removeChar (c : Char) (s : List Char) : List Char :=
  s.filter (fun x => decide (x ≠ c))

/-- Models Python `str.rstrip(set)`: drop trailing characters that lie in `cs`. -/
def pyRstrip (cs : List Char) (s : List Char) : List Char :=
  (s.reverse.dropWhile (fun c => decide (c ∈ cs))).reverse

/-- Models Python `str.rstrip()` with no argument: drop trailing whitespace. -/
def pyRstripWs (s : List Char) : List Char :=
  (s.reverse.dropWhile Char.isWhitespace).reverse

/-- Models Python `str.strip()`: drop whitespace at both ends. -/
def pyStrip (s : List Char) : List Char :=
  ((s.dropWhile Char.isWhitespace).reverse.dropWhile Char.isWhitespace).reverse

/-- Models Python `str.endswith`. -/
def pyEndsWith (s p : List Char) : Bool := decide (p <:+ s)

/-! ### Auto-send text matcher (`hotkey_daemon.py`, `_transcribe_and_paste`) -/

/-- The strip set `".!?,;: "` used by `_normalize` and the keyword watch loop. -/
def stripPunct : List Char := ['.', '!', '?', ',', ';', ':', ' ']

/-- The strip set `".!?,;: " + apostrophe + U+2019` used before the cut walk
(the Python literal lists the apostrophe twice; as a character set that is
the same as listing it once). -/
def stripPunctApos : List Char := stripPunct ++ [apos, rsquo]

/-- `_normalize` from `_transcribe_and_paste`:
`s.lower().replace(apostrophe, "").replace(u2019, "").rstrip(".!?,;: ")`. -/
def normalize (s : List Char) : List Char :=
  pyRstrip stripPunct (removeChar rsquo (removeChar apos (pyLower s)))

/-- The normalization applied inline to tail transcripts in
`_keyword_watch_loop`: the same chain of lower / remove-apostrophes / rstrip. -/
def tail_norm (s : List Char) : List Char :=
  pyRstrip stripPunct (removeChar rsquo (removeChar apos (pyLower s)))

/-- How `main` stores each configured keyword: `kw.lower().strip()`. -/
def kw_norm (kw : List Char) : List Char := pyStrip (pyLower kw)

/-- The backward cut walk of `_transcribe_and_paste`, acting on the reversed
stripped text: drop one character per loop iteration, decrementing the
needed count only for characters that are not apostrophe variants, until
the count is exhausted or the text is. -/
def dropNormChars : Nat → List Char → List Char
  | 0, l => l
  | _ + 1, [] => []
  | need + 1, c :: rest =>
    if c.toLower = apos ∨ c.toLower = rsquo then dropNormChars (need + 1) rest
    else dropNormChars need rest

/-- The matched-keyword branch of `_transcribe_and_paste`: strip trailing
punctuation/apostrophes from the original text, walk backward consuming
`len(kw)` normalized characters, keep the prefix, right-trim whitespace. -/
def cut_original (kw text : List Char) : List Char :=
  let stripped := pyRstrip stripPunctApos text
  pyRstripWs (dropNormChars kw.length stripped.reverse).reverse

/-- The auto-send matcher of `_transcribe_and_paste`: first configured
keyword (in order) that the normalized text ends with wins; on a match the
text is cut in the original string and `should_send` is set. -/
def auto_send (keywords : List (List Char)) (text : List Char) :
    List Char × Bool :=
  match keywords.find? (fun kw => pyEndsWith (normalize text) kw) with
  | some kw => (cut_original kw text, true)
  | none => (text, false)

/-! ### Auto-stop silence detector (`record_until_silence` callback) -/

/-- The mutable detector state captured by the callback closure. -/
structure SilState where
  speech_started : Bool
  speech_start_time : ℚ
  last_speech_time : ℚ
deriving DecidableEq

/-- Initial detector state (`speech_started = False`, times `0.0`). -/
def silInit : SilState := ⟨false, 0, 0⟩

/-- The threshold branch of the callback: when the block RMS exceeds the
speech threshold, mark speech as started (recording its start time on the
first crossing) and refresh the last-speech time. -/
def threshUpdate (thr : ℚ) (s : SilState) (rms now : ℚ) : SilState :=
  if rms > thr then
    { speech_started := true
      speech_start_time := if s.speech_started then s.speech_start_time else now
      last_speech_time := now }
  else s

/-- The stop check of the callback, evaluated on the post-threshold-update
state: hard cap first, then the silence-after-speech test. -/
def stopSignal (maxS timeout t0 : ℚ) (s : SilState) (now : ℚ) : Bool :=
  if now - t0 ≥ maxS then true
  else if s.speech_started then
    decide (now - s.speech_start_time > 1 / 2 ∧ now - s.last_speech_time > timeout)
  else false

/-- One whole callback invocation for a block with RMS `b.1` arriving at
wall-clock time `b.2`: update the state, then report whether `done` is set. -/
def silence_step (thr maxS timeout t0 : ℚ) (s : SilState) (b : ℚ × ℚ) :
    SilState × Bool :=
  let s' := threshUpdate thr s b.1 b.2
  (s', stopSignal maxS timeout t0 s' b.2)

/-- Detector state after the first `n` blocks of a run. -/
def silStates (thr : ℚ) (blocks : List (ℚ × ℚ)) (n : Nat) : SilState :=
  (blocks.take n).foldl (fun s b => threshUpdate thr s b.1 b.2) silInit

/-- The stop condition exactly as the specification words it: elapsed time
at least `max_seconds`, or speech started, more than half a second since it
started, and more than the silence timeout since it was last heard. -/
def stopCond (maxS timeout t0 : ℚ) (s : SilState) (now : ℚ) : Prop :=
  now - t0 ≥ maxS ∨
    (s.speech_started = true ∧ now - s.speech_start_time > 1 / 2 ∧
      now - s.last_speech_time > timeout)

/-! ### Capture buffer and tail extraction (`get_tail_wav`) -/

/-- Python `int(q)`: truncation toward zero. -/
def pyInt (q : ℚ) : Int := if 0 ≤ q then ⌊q⌋ else -⌊-q⌋

/-- `samples_needed = int(sample_rate * seconds)` (as a count, i.e. clamped
to zero from below as the later uses require a natural number). -/
def samples_needed (rate : Nat) (seconds : ℚ) : Nat :=
  (pyInt (rate * seconds)).toNat

/-- The backward walk of `get_tail_wav` over the reversed frame list:
prepend whole frames (restoring original order) until the frames collected
so far hold at least the still-needed number of samples, or the buffer is
exhausted.  `n` is the number of samples still needed. -/
def collect_tail : List (List Int) → Nat → List (List Int)
  | [], _ => []
  | f :: rest, n =>
    if n ≤ f.length then [f]
    else collect_tail rest (n - f.length) ++ [f]

/-- The last `n` elements of a list (used to express what slicing from the
end returns when `n ≥ 1`). -/
def lastN (n : Nat) (l : List α) : List α := l.drop (l.length - n)

/-- Python slicing `l[-n:]` for a nonnegative count `n`: for `n = 0` the
index `-0` is `0`, so the WHOLE list is returned, not the empty one. -/
def pySliceNeg (n : Nat) (l : List α) : List α :=
  if n = 0 then l else lastN n l

/-- `get_tail_wav` of `recorder.py`, returning the samples that would be
written to the temp WAV (None when the frame list is empty). -/
def get_tail_wav (rate : Nat) (seconds : ℚ) (frames : List (List Int)) :
    Option (List Int) :=
  if frames = [] then none
  else
    some (pySliceNeg (samples_needed rate seconds)
      (collect_tail frames.reverse (samples_needed rate seconds)).flatten)

/-! ### Recorder state machine (`VoiceRecorder`) and daemon toggle state -/

/-- The mutable fields of a `VoiceRecorder` relevant to the claims:
`_frames`, `_is_recording`, and whether `_stream` is a live object. -/
structure RecState where
  frames : List (List Int)
  is_recording : Bool
  stream_open : Bool
deriving DecidableEq

/-- A freshly constructed recorder. -/
def recIdle : RecState := ⟨[], false, false⟩

/-- `start()` when the audio subsystem opens the stream successfully:
fresh frame list, recording flag set, stream open. -/
def rec_start (_ : RecState) : RecState := ⟨[], true, true⟩

/-- `start()` when `sd.InputStream(...)` raises: the statements already
executed have cleared `_frames` and set `_is_recording = True`; `_stream`
is left as it was. -/
def rec_start_fail (s : RecState) : RecState :=
  { s with frames := [], is_recording := true }

/-- `_toggle_cb`: append the block while recording (the band-level side
effect is external feedback and does not change this state). -/
def toggle_cb (s : RecState) (b : List Int) : RecState :=
  if s.is_recording then { s with frames := s.frames ++ [b] } else s

/-- `stop()`: clear the recording flag, close the stream, and either return
no audio (empty frame list) or the concatenated samples, clearing the
frame list. -/
def rec_stop (s : RecState) : Option (List Int) × RecState :=
  let s1 : RecState := { s with is_recording := false, stream_open := false }
  if s1.frames = [] then (none, s1)
  else (some s1.frames.flatten, { s1 with frames := [] })

/-- `get_tail_wav` as a state transformer: its body reads `_frames` and
writes a temp file but assigns to no field of the recorder. -/
def get_tail_op (rate : Nat) (seconds : ℚ) (s : RecState) :
    Option (List Int) × RecState :=
  (get_tail_wav rate seconds s.frames, s)

/-- The hotkey daemon toggle state (the `state` dict) plus the recorder. -/
structure DaemonState where
  recording : Bool
  busy : Bool
  recorder : RecState
deriving DecidableEq

/-- The START branch of `on_hotkey` (taken when not busy and not yet
recording): set the toggle flag, then try `recorder.start()`; on a device
failure the handler clears the toggle flag again (the recorder object is
left as the partial execution of `start()` made it). -/
def hotkey_start (deviceOk : Bool) (d : DaemonState) : DaemonState :=
  let d1 : DaemonState := { d with recording := true }
  if deviceOk then { d1 with recorder := rec_start d1.recorder }
  else { d1 with recording := false, recorder := rec_start_fail d1.recorder }

/-! ### WAV serialization (`_save_wav`) -/

/-- What `wave` writes for `_save_wav`: the header fields set by the
`setnchannels` / `setsampwidth` / `setframerate` calls and the raw data
chunk from `audio_data.tobytes()`. -/
structure WavFile where
  nchannels : Nat
  sampwidth : Nat
  framerate : Nat
  dataBytes : List Nat
deriving DecidableEq

/-- One int16 sample as its two's-complement little-endian byte pair,
exactly as numpy `tobytes()` lays it out. -/
def int16le (v : Int) : List Nat :=
  [(v % 65536).toNat % 256, (v % 65536).toNat / 256]

/-- Decode a little-endian int16 byte stream back to samples. -/
def decode16 : List Nat → List Int
  | b0 :: b1 :: rest =>
    (if b0 + 256 * b1 < 32768 then ((b0 + 256 * b1 : Nat) : Int)
     else ((b0 + 256 * b1 : Nat) : Int) - 65536) :: decode16 rest
  | _ => []

/-- `_save_wav`: channels as configured, 2-byte samples, configured rate,
samples serialized in order. -/
def save_wav (channels rate : Nat) (audio : List Int) : WavFile :=
  ⟨channels, 2, rate, audio.flatMap int16le⟩

/-! ### Frequency band levels (`_compute_bands`) -/

/-- The overlay bar count. -/
def NUM_BANDS : Nat := 7

/-- `_compute_bands`.  The FFT magnitudes, the per-band mask test and the
dB value `20*log10(max(mean_power, 1e-10)) - 20` are floating-point signal
processing; they are abstracted as the oracles `maskAny` (whether band `i`
holds any frequency bin) and `bandDb` (its dB value).  The structure the
claim is about — the short-block branch, the per-band loop and the final
clamp `max(0.0, min(1.0, (db + 10) / 50))` — is embedded as written. -/
def compute_bands (n : Nat) (maskAny : Nat → Bool) (bandDb : Nat → ℚ) :
    List ℚ :=
  if n < 2 then List.replicate NUM_BANDS 0
  else
    (List.range NUM_BANDS).map fun i =>
      if maskAny i then max 0 (min 1 ((bandDb i + 10) / 50)) else 0

/-! ### Helper lemmas -/

theorem mem_of_mem_pyRstrip {cs l : List Char} {x : Char}
    (h : x ∈ pyRstrip cs l) : x ∈ l := by
  unfold pyRstrip at h
  rw [List.mem_reverse] at h
  have h2 := (List.dropWhile_suffix (fun c => decide (c ∈ cs))).subset h
  exact List.mem_reverse.mp h2

theorem not_mem_removeChar (c : Char) (l : List Char) : c ∉ removeChar c l := by
  unfold removeChar
  intro h
  rcases List.mem_filter.mp h with ⟨-, hdec⟩
  simp at hdec

theorem mem_of_mem_removeChar {c x : Char} {l : List Char}
    (h : x ∈ removeChar c l) : x ∈ l := (List.mem_filter.mp h).1

theorem apos_not_mem_normalize (s : List Char) : apos ∉ normalize s := by
  intro h
  exact not_mem_removeChar apos (pyLower s)
    (mem_of_mem_removeChar (mem_of_mem_pyRstrip h))

theorem rsquo_not_mem_normalize (s : List Char) : rsquo ∉ normalize s := by
  intro h
  exact not_mem_removeChar rsquo _ (mem_of_mem_pyRstrip h)

theorem head?_dropWhile_not {α : Type} (p : α → Bool) (l : List α) {c : α}
    (h : (l.dropWhile p).head? = some c) : p c = false := by
  induction l with
  | nil => simp [List.dropWhile] at h
  | cons a rest ih =>
    by_cases hp : p a
    · rw [List.dropWhile_cons, if_pos hp] at h
      exact ih h
    · rw [List.dropWhile_cons, if_neg hp] at h
      obtain rfl : a = c := by simpa using h
      simpa using hp

theorem frames_foldl_toggle (bs : List (List Int)) (s : RecState)
    (h : s.is_recording = true) :
    (bs.foldl toggle_cb s).frames = s.frames ++ bs ∧
      (bs.foldl toggle_cb s).is_recording = true := by
  induction bs generalizing s with
  | nil => simpa using h
  | cons b rest ih =>
    rw [List.foldl_cons]
    have hstep : toggle_cb s b = { s with frames := s.frames ++ [b] } := by
      simp [toggle_cb, h]
    rw [hstep]
    have hrec := ih { s with frames := s.frames ++ [b] } h
    simpa [List.append_assoc] using hrec

/-! ### Claim theorems -/

/-- C2: on the final transcript `Let's go and send it` with trigger phrase
`send it`, the auto-send matcher yields trimmed text `Let's go and` with
`should_send = true`, and the trailing-punctuation variants ending in
`send it.` / `send it!` / `send it,` match identically. -/
theorem c2_auto_send_examples :
    auto_send [kw_norm "send it".data]
        ("Let".data ++ [apos] ++ "s go and send it".data) =
      ("Let".data ++ [apos] ++ "s go and".data, true) ∧
    auto_send [kw_norm "send it".data]
        ("Let".data ++ [apos] ++ "s go and send it.".data) =
      ("Let".data ++ [apos] ++ "s go and".data, true) ∧
    auto_send [kw_norm "send it".data]
        ("Let".data ++ [apos] ++ "s go and send it!".data) =
      ("Let".data ++ [apos] ++ "s go and".data, true) ∧
    auto_send [kw_norm "send it".data]
        ("Let".data ++ [apos] ++ "s go and send it,".data) =
      ("Let".data ++ [apos] ++ "s go and".data, true) := by
  decide

/-- C3 counterexample: a trigger phrase configured with an apostrophe is
stored by `main` as `kw.lower().strip()`, which is NOT the normalization
applied to transcripts; on the transcript `okay, let's go` the normalized
text ends with the apostrophe-free form `lets go`, yet the matcher does
not fire, refuting the claim that such a phrase matches. -/
theorem c3_counterexample :
    kw_norm ("let".data ++ [apos] ++ "s go".data) ≠
        normalize ("let".data ++ [apos] ++ "s go".data) ∧
      pyEndsWith (normalize ("okay, let".data ++ [apos] ++ "s go".data))
        "lets go".data = true ∧
      (auto_send [kw_norm ("let".data ++ [apos] ++ "s go".data)]
          ("okay, let".data ++ [apos] ++ "s go".data)).2 = false := by
  decide

/-- C3 amended: configured trigger phrases are held lowercased and
whitespace-stripped only; apostrophes and trailing punctuation are kept.
Since transcript normalization removes every apostrophe variant, a phrase
whose stored form still contains one never matches any transcript. -/
theorem c3_apostrophe_keyword_never_sends (kw text : List Char)
    (h : apos ∈ kw_norm kw ∨ rsquo ∈ kw_norm kw) :
    (auto_send [kw_norm kw] text).2 = false := by
  unfold auto_send
  have hend : pyEndsWith (normalize text) (kw_norm kw) = false := by
    unfold pyEndsWith
    rw [decide_eq_false_iff_not]
    intro hsuff
    rcases h with h | h
    · exact apos_not_mem_normalize text (hsuff.subset h)
    · exact rsquo_not_mem_normalize text (hsuff.subset h)
  simp [List.find?, hend]

theorem c3_witness :
    (apos ∈ kw_norm ("let".data ++ [apos] ++ "s go".data) ∨
        rsquo ∈ kw_norm ("let".data ++ [apos] ++ "s go".data)) ∧
      (auto_send [kw_norm ("let".data ++ [apos] ++ "s go".data)]
          "we should lets go".data).2 = false :=
  ⟨Or.inl (by decide),
    c3_apostrophe_keyword_never_sends _ _ (Or.inl (by decide))⟩

/-- C5: tail extraction never mutates the capture buffer: however many
times `get_tail_wav` runs on the recorder state built by appending
`blocks`, the state is unchanged, the buffer still holds exactly the
appended blocks in order, and a subsequent `stop()` drains exactly their
concatenation. -/
theorem c5_tail_never_mutates (blocks : List (List Int)) (k : Nat)
    (rate : Nat) (seconds : ℚ) :
    (fun t => (get_tail_op rate seconds t).2)^[k]
        (blocks.foldl toggle_cb (rec_start recIdle)) =
      blocks.foldl toggle_cb (rec_start recIdle) ∧
    ((fun t => (get_tail_op rate seconds t).2)^[k]
        (blocks.foldl toggle_cb (rec_start recIdle))).frames = blocks ∧
    (rec_stop ((fun t => (get_tail_op rate seconds t).2)^[k]
        (blocks.foldl toggle_cb (rec_start recIdle)))).1 =
      (if blocks = [] then none else some blocks.flatten) := by
  have hid : (fun t => (get_tail_op rate seconds t).2) = id := rfl
  rw [hid, Function.iterate_id, id]
  have hframes : (blocks.foldl toggle_cb (rec_start recIdle)).frames = blocks := by
    simpa using (frames_foldl_toggle blocks (rec_start recIdle) rfl).1
  refine ⟨rfl, hframes, ?_⟩
  simp only [rec_stop, hframes]
  by_cases hb : blocks = [] <;> simp [hb]

/-- C7: `stop()` with zero captured blocks returns no WAV (the result is
`none` exactly on an empty frame list), and a second consecutive `stop()`
always returns `none` rather than producing a second WAV. -/
theorem c7_stop_empty_and_twice (s : RecState) :
    ((rec_stop s).1 =
        if s.frames = [] then none else some s.frames.flatten) ∧
      (rec_stop (rec_stop s).2).1 = none := by
  unfold rec_stop
  by_cases h : s.frames = [] <;> simp [h]

/-- C8 counterexample: after a device failure in `start()`, the recorder
object itself still has `_is_recording = True` (only the daemon's toggle
flag is cleared), refuting the claim that the recorder's recording flag
reverts to false. -/
theorem c8_counterexample :
    (hotkey_start false ⟨false, false, recIdle⟩).recorder.is_recording
        = true ∧
      (hotkey_start false ⟨false, false, recIdle⟩).recording = false :=
  ⟨rfl, rfl⟩

/-- C8 amended: when `start()` fails, the daemon's toggle state reverts
(recording flag false, busy unchanged) and no stream is retained; the
recorder's internal `_is_recording` flag remains set but no stream is
open, and a subsequent successful start proceeds normally with a fresh
buffer and an open stream. -/
theorem c8_start_fail_recovers (d : DaemonState) (h1 : d.busy = false)
    (h2 : d.recorder.stream_open = false) :
    (hotkey_start false d).recording = false ∧
    (hotkey_start false d).busy = false ∧
    (hotkey_start false d).recorder.stream_open = false ∧
    (hotkey_start false d).recorder.frames = [] ∧
    (hotkey_start true (hotkey_start false d)).recording = true ∧
    (hotkey_start true (hotkey_start false d)).recorder =
      ⟨[], true, true⟩ := by
  simp [hotkey_start, rec_start, rec_start_fail, h1, h2]

theorem c8_witness :
    (hotkey_start false ⟨false, false, ⟨[], false, false⟩⟩).recording = false ∧
    (hotkey_start false ⟨false, false, ⟨[], false, false⟩⟩).busy = false ∧
    (hotkey_start false ⟨false, false, ⟨[], false, false⟩⟩).recorder.stream_open = false ∧
    (hotkey_start false ⟨false, false, ⟨[], false, false⟩⟩).recorder.frames = [] ∧
    (hotkey_start true (hotkey_start false ⟨false, false, ⟨[], false, false⟩⟩)).recording = true ∧
    (hotkey_start true (hotkey_start false ⟨false, false, ⟨[], false, false⟩⟩)).recorder =
      ⟨[], true, true⟩ :=
  c8_start_fail_recovers ⟨false, false, ⟨[], false, false⟩⟩ rfl rfl

/-- C9: for every input block (including blocks shorter than two samples)
and every outcome of the floating-point spectrum analysis, the band-level
computation returns exactly `NUM_BANDS` (seven) entries, each lying in the
closed interval `[0, 1]`. -/
theorem c9_compute_bands_shape (n : Nat) (maskAny : Nat → Bool)
    (bandDb : Nat → ℚ) :
    (compute_bands n maskAny bandDb).length = NUM_BANDS ∧
      ∀ x ∈ compute_bands n maskAny bandDb, 0 ≤ x ∧ x ≤ 1 := by
  unfold compute_bands
  split
  · refine ⟨List.length_replicate _ _, fun x hx => ?_⟩
    rw [List.eq_of_mem_replicate hx]
    norm_num
  · refine ⟨by simp [NUM_BANDS], fun x hx => ?_⟩
    rcases List.mem_map.mp hx with ⟨i, -, rfl⟩
    split
    · exact ⟨le_max_left _ _, max_le (by norm_num) (min_le_left _ _)⟩
    · norm_num

/-- C10: the inline normalization of the keyword watch loop and
`_normalize` of the final matcher agree on every string, and their common
result is apostrophe-free and does not end in a stripped trailing
character. -/
theorem c10_normalizations_agree (s : List Char) :
    tail_norm s = normalize s ∧
      apos ∉ normalize s ∧ rsquo ∉ normalize s ∧
      (normalize s).getLast?.all (fun c => !(decide (c ∈ stripPunct))) = true := by
  refine ⟨rfl, apos_not_mem_normalize s, rsquo_not_mem_normalize s, ?_⟩
  rcases hlast : (normalize s).getLast? with _ | c
  · rfl
  · have hc : decide (c ∈ stripPunct) = false := by
      unfold normalize pyRstrip at hlast
      rw [List.getLast?_reverse] at hlast
      exact head?_dropWhile_not (fun x => decide (x ∈ stripPunct))
        ((removeChar rsquo (removeChar apos (pyLower s))).reverse) hlast
    simp [Option.all, hc]


/-- The per-block stop signal agrees with the specification's stop
condition on every state, and on states where speech has not started it
reduces to the hard elapsed-time cap. -/
theorem stopSignal_iff (maxS timeout t0 : ℚ) (s : SilState) (now : ℚ) :
    (stopSignal maxS timeout t0 s now = true ↔
        stopCond maxS timeout t0 s now) ∧
      (s.speech_started = false →
        (stopSignal maxS timeout t0 s now = true ↔ now - t0 ≥ maxS)) := by
  unfold stopSignal stopCond
  constructor
  · split_ifs with h1 h2
    · exact iff_of_true rfl (Or.inl h1)
    · rw [decide_eq_true_iff]
      constructor
      · exact fun hab => Or.inr ⟨h2, hab⟩
      · rintro (h | ⟨-, hab⟩)
        · exact absurd h h1
        · exact hab
    · constructor
      · intro h
        exact absurd h (by decide)
      · rintro (h | ⟨hs, -⟩)
        · exact absurd h h1
        · exact absurd hs h2
  · intro hs
    split_ifs with h1 h2
    · exact iff_of_true rfl h1
    · rw [hs] at h2
      exact absurd h2 (by decide)
    · exact iff_of_false (by decide) h1

/-- C1: in auto-stop mode the per-block detector signals stop exactly when
the elapsed time reaches `max_seconds` (whatever the speech state), or when
speech has started, more than half a second has passed since it started and
more than `silence_timeout` has passed since it was last heard; in
particular it never signals before either condition holds, and while
`speech_started` is false only the hard cap can stop it. -/
theorem c1_silence_detector (thr maxS timeout t0 : ℚ)
    (blocks : List (ℚ × ℚ)) (i : Nat) (b : ℚ × ℚ)
    (hb : blocks[i]? = some b) :
    ((silence_step thr maxS timeout t0 (silStates thr blocks i) b).2 = true ↔
        stopCond maxS timeout t0 (silStates thr blocks (i + 1)) b.2) ∧
      ((silStates thr blocks (i + 1)).speech_started = false →
        ((silence_step thr maxS timeout t0 (silStates thr blocks i) b).2 = true ↔
          b.2 - t0 ≥ maxS)) := by
  have hstate : silStates thr blocks (i + 1) =
      threshUpdate thr (silStates thr blocks i) b.1 b.2 := by
    unfold silStates
    rw [List.take_succ, hb, List.foldl_append]
    rfl
  have hsig : (silence_step thr maxS timeout t0 (silStates thr blocks i) b).2 =
      stopSignal maxS timeout t0 (silStates thr blocks (i + 1)) b.2 := by
    rw [hstate]
    rfl
  rw [hsig]
  exact stopSignal_iff maxS timeout t0 (silStates thr blocks (i + 1)) b.2

theorem c1_witness :
    ((silence_step 500 30 2 0 (silStates 500 [(1000, 1 / 10), (0, 3)] 1)
        (0, 3)).2 = true ↔
      stopCond 30 2 0 (silStates 500 [(1000, 1 / 10), (0, 3)] 2)
        ((0 : ℚ), (3 : ℚ)).2) ∧
    ((silStates 500 [(1000, 1 / 10), (0, 3)] 2).speech_started = false →
      ((silence_step 500 30 2 0 (silStates 500 [(1000, 1 / 10), (0, 3)] 1)
          (0, 3)).2 = true ↔
        ((0 : ℚ), (3 : ℚ)).2 - 0 ≥ 30)) :=
  c1_silence_detector 500 30 2 0 [(1000, 1 / 10), (0, 3)] 1 (0, 3) rfl

/-- When the suffix fits in the appended part, taking the last `n` elements
ignores the front part. -/
theorem lastN_append_right {α : Type} (n : Nat) (A f : List α)
    (h : n ≤ f.length) : lastN n (A ++ f) = lastN n f := by
  unfold lastN
  rw [List.length_append,
    show A.length + f.length - n = A.length + (f.length - n) by omega]
  exact List.drop_append (f.length - n)

/-- When the appended part fits in the suffix, taking the last `n` elements
keeps it whole and recurses on the front part. -/
theorem lastN_append_left {α : Type} (n : Nat) (A f : List α)
    (h : f.length ≤ n) : lastN n (A ++ f) = lastN (n - f.length) A ++ f := by
  unfold lastN
  rw [List.length_append,
    show A.length + f.length - n = A.length - (n - f.length) by omega]
  exact List.drop_append_of_le_length (by omega)

/-- The backward whole-block walk followed by slicing the last `n` samples
yields exactly the last `n` samples of the whole concatenated buffer. -/
theorem collect_tail_lastN (r : List (List Int)) : ∀ n : Nat,
    lastN n (collect_tail r n).flatten = lastN n r.reverse.flatten := by
  induction r with
  | nil => intro n; rfl
  | cons f rest ih =>
    intro n
    rw [show (f :: rest).reverse.flatten = rest.reverse.flatten ++ f by simp]
    unfold collect_tail
    split
    case isTrue h =>
      rw [lastN_append_right n _ f h]
      simp [lastN]
    case isFalse h =>
      push_neg at h
      simp only [List.flatten_append, List.flatten_cons, List.flatten_nil,
        List.append_nil]
      rw [lastN_append_left n _ f (le_of_lt h),
        lastN_append_left n rest.reverse.flatten f (le_of_lt h),
        ih (n - f.length)]

/-- C4 counterexample: with a requested duration of 0 seconds the computed
sample count is 0, and the Python slice `[-0:]` returns the whole collected
block, so `get_tail_wav` returns three samples where the claim allows at
most `0 * sample_rate = 0`. -/
theorem c4_counterexample :
    samples_needed 16000 0 = 0 ∧
      get_tail_wav 16000 0 [[1, 2, 3]] = some [1, 2, 3] ∧
      ¬(([1, 2, 3] : List Int).length ≤ samples_needed 16000 0) := by
  have h : samples_needed 16000 0 = 0 := by
    norm_num [samples_needed, pyInt]
  refine ⟨h, ?_, ?_⟩
  · simp [get_tail_wav, h, pySliceNeg, collect_tail]
  · simp [h]

/-- C4 amended: whenever the computed whole-sample count
`int(sample_rate * seconds)` is at least one, `get_tail_wav` returns `none`
exactly on an empty buffer and otherwise exactly the last
`samples_needed` samples of the concatenated buffer — hence never more
than `samples_needed` samples, which is at most `seconds * sample_rate`.
Only the degenerate case `samples_needed = 0` (e.g. a zero requested
duration), where the `[-0:]` slice returns a whole block, is excluded. -/
theorem c4_tail_bounded (rate : Nat) (seconds : ℚ) (frames : List (List Int))
    (hpos : 1 ≤ samples_needed rate seconds) :
    get_tail_wav rate seconds frames =
        (if frames = [] then none
         else some (lastN (samples_needed rate seconds) frames.flatten)) ∧
      (∀ l, get_tail_wav rate seconds frames = some l →
        l.length ≤ samples_needed rate seconds) ∧
      (0 ≤ seconds →
        (samples_needed rate seconds : ℚ) ≤ (rate : ℚ) * seconds) := by
  have hne : samples_needed rate seconds ≠ 0 := by omega
  have hmain : get_tail_wav rate seconds frames =
      (if frames = [] then none
       else some (lastN (samples_needed rate seconds) frames.flatten)) := by
    unfold get_tail_wav pySliceNeg
    by_cases hf : frames = []
    · simp [hf]
    · rw [if_neg hf, if_neg hf, if_neg hne,
        collect_tail_lastN frames.reverse (samples_needed rate seconds)]
      simp
  refine ⟨hmain, ?_, ?_⟩
  · intro l hl
    rw [hmain] at hl
    by_cases hf : frames = []
    · rw [if_pos hf] at hl
      exact absurd hl (by simp)
    · rw [if_neg hf, Option.some_inj] at hl
      rw [← hl]
      unfold lastN
      rw [List.length_drop]
      omega
  · intro hsec
    unfold samples_needed pyInt
    have hq : (0 : ℚ) ≤ (rate : ℚ) * seconds :=
      mul_nonneg (Nat.cast_nonneg rate) hsec
    rw [if_pos hq]
    have hfl : (0 : Int) ≤ ⌊(rate : ℚ) * seconds⌋ := Int.floor_nonneg.mpr hq
    have hcast : ((⌊(rate : ℚ) * seconds⌋.toNat : Nat) : ℚ) =
        ((⌊(rate : ℚ) * seconds⌋ : Int) : ℚ) := by
      exact_mod_cast congrArg Int.cast (Int.toNat_of_nonneg hfl)
    rw [hcast]
    exact Int.floor_le _

theorem c4_witness :
    1 ≤ samples_needed 2 1 ∧
      (get_tail_wav 2 1 [[1, 2], [3, 4]] =
          (if ([[1, 2], [3, 4]] : List (List Int)) = [] then none
           else some (lastN (samples_needed 2 1)
             ([[1, 2], [3, 4]] : List (List Int)).flatten)) ∧
        (∀ l, get_tail_wav 2 1 [[1, 2], [3, 4]] = some l →
          l.length ≤ samples_needed 2 1) ∧
        (0 ≤ (1 : ℚ) → (samples_needed 2 1 : ℚ) ≤ (2 : ℚ) * 1)) :=
  ⟨by norm_num [samples_needed, pyInt],
    c4_tail_bounded 2 1 [[1, 2], [3, 4]]
      (by norm_num [samples_needed, pyInt])⟩

/-- Decoding the two little-endian bytes of an in-range int16 sample
recovers the sample. -/
theorem decode16_int16le_cons (v : Int) (bs : List Nat)
    (h1 : -32768 ≤ v) (h2 : v < 32768) :
    decode16 (int16le v ++ bs) = v :: decode16 bs := by
  have hnn : (0 : Int) ≤ v % 65536 := Int.emod_nonneg v (by norm_num)
  have hlt : v % 65536 < 65536 := Int.emod_lt_of_pos v (by norm_num)
  have hcast : (((v % 65536).toNat : Nat) : Int) = v % 65536 :=
    Int.toNat_of_nonneg hnn
  show (if (v % 65536).toNat % 256 + 256 * ((v % 65536).toNat / 256) < 32768
      then (((v % 65536).toNat % 256 +
        256 * ((v % 65536).toNat / 256) : Nat) : Int)
      else (((v % 65536).toNat % 256 +
        256 * ((v % 65536).toNat / 256) : Nat) : Int) - 65536)
      :: decode16 bs = v :: decode16 bs
  rw [Nat.mod_add_div ((v % 65536).toNat) 256]
  congr 1
  split_ifs with hlt2
  · omega
  · omega

/-- Round trip through the byte serialization for every in-range sample
sequence. -/
theorem decode16_flatMap (l : List Int)
    (h : ∀ v ∈ l, -32768 ≤ v ∧ v < 32768) :
    decode16 (l.flatMap int16le) = l := by
  induction l with
  | nil => rfl
  | cons v rest ih =>
    rw [List.flatMap_cons,
      decode16_int16le_cons v _ (h v (List.mem_cons_self v rest)).1
        (h v (List.mem_cons_self v rest)).2,
      ih fun w hw => h w (List.mem_cons_of_mem v hw)]

/-- Each sample serializes to exactly two bytes. -/
theorem flatMap_int16le_length (l : List Int) :
    (l.flatMap int16le).length = 2 * l.length := by
  induction l with
  | nil => rfl
  | cons v rest ih =>
    rw [List.flatMap_cons, List.length_append, ih]
    simp [int16le]
    omega

/-- C6: draining the buffer on `stop()` yields the appended blocks'
concatenation in arrival order, and serializing it produces a data chunk of
twice the total sample count whose deserialization recovers the samples
byte for byte; the total sample count is the sum of the block lengths. -/
theorem c6_drain_serialize_roundtrip (blocks : List (List Int))
    (channels rate : Nat)
    (h : ∀ v ∈ blocks.flatten, -32768 ≤ v ∧ v < 32768) :
    (rec_stop (blocks.foldl toggle_cb (rec_start recIdle))).1 =
        (if blocks = [] then none else some blocks.flatten) ∧
      (save_wav channels rate blocks.flatten).dataBytes.length =
        2 * (blocks.map List.length).sum ∧
      decode16 ((save_wav channels rate blocks.flatten).dataBytes) =
        blocks.flatten ∧
      blocks.flatten.length = (blocks.map List.length).sum := by
  have hframes : (blocks.foldl toggle_cb (rec_start recIdle)).frames = blocks := by
    simpa using (frames_foldl_toggle blocks (rec_start recIdle) rfl).1
  refine ⟨?_, ?_, decode16_flatMap blocks.flatten h, List.length_flatten blocks⟩
  · simp only [rec_stop, hframes]
    by_cases hb : blocks = [] <;> simp [hb]
  · unfold save_wav
    rw [flatMap_int16le_length, List.length_flatten]

theorem c6_witness :
    (∀ v ∈ ([[1, -2], [3]] : List (List Int)).flatten,
        -32768 ≤ v ∧ v < 32768) ∧
      ((rec_stop (([[1, -2], [3]] : List (List Int)).foldl toggle_cb
            (rec_start recIdle))).1 =
          (if ([[1, -2], [3]] : List (List Int)) = [] then none
           else some ([[1, -2], [3]] : List (List Int)).flatten) ∧
        (save_wav 1 16000
            ([[1, -2], [3]] : List (List Int)).flatten).dataBytes.length =
          2 * (([[1, -2], [3]] : List (List Int)).map List.length).sum ∧
        decode16 ((save_wav 1 16000
            ([[1, -2], [3]] : List (List Int)).flatten).dataBytes) =
          ([[1, -2], [3]] : List (List Int)).flatten ∧
        ([[1, -2], [3]] : List (List Int)).flatten.length =
          (([[1, -2], [3]] : List (List Int)).map List.length).sum) :=
  ⟨by decide, c6_drain_serialize_roundtrip [[1, -2], [3]] 1 16000 (by decide)⟩

end VoiceInput
